import Mathlib

/-!
Shallow embedding of the Ollama provider adapter (src/ollama.ts) for the
Strands agent SDK: the request formatter `OllamaModel._formatRequest` and the
stream translator `OllamaModel.stream`, together with theorems settling the
frozen claims about them.

JavaScript objects whose key set matters (the wire request, the `options` and
`params` bags) are embedded as association lists `JObj` with last-binding-wins
lookup, which models object-literal construction followed by spread merges.
JavaScript `undefined` stored under a present key is the `JsonValue.undef`
constructor; a key that is absent has no binding at all.
-/

/-- JSON-like runtime values (the `unknown` values flowing through the
adapter).  Numbers are embedded as integers; no claim inspects numeric
values beyond the token counts, which the chunk type carries as `Nat`. -/
inductive JsonValue : Type where
  | null : JsonValue
  | undef : JsonValue
  | bool (b : Bool) : JsonValue
  | num (n : Int) : JsonValue
  | str (s : String) : JsonValue
  | arr (elems : List JsonValue) : JsonValue
  | obj (fields : List (String × JsonValue)) : JsonValue

mutual
/-- Model of `JSON.stringify` restricted to the values the adapter serializes
(tool-call arguments and structured tool-result items).  `undef` is rendered
like `null`; the adapter never serializes an `undef`. -/
def JsonValue.stringify : JsonValue → String
  | .null => "null"
  | .undef => "null"
  | .bool b => if b then "true" else "false"
  | .num n => toString n
  | .str s => "\"" ++ s ++ "\""
  | .arr elems => "[" ++ JsonValue.stringifyElems elems ++ "]"
  | .obj fields => "\x7b" ++ JsonValue.stringifyFields fields ++ "\x7d"

def JsonValue.stringifyElems : List JsonValue → String
  | [] => ""
  | [v] => v.stringify
  | v :: rest => v.stringify ++ "," ++ JsonValue.stringifyElems rest

def JsonValue.stringifyFields : List (String × JsonValue) → String
  | [] => ""
  | [(k, v)] => "\"" ++ k ++ "\":" ++ v.stringify
  | (k, v) :: rest => "\"" ++ k ++ "\":" ++ v.stringify ++ "," ++ JsonValue.stringifyFields rest
end

/-- JavaScript object as an association list; later bindings override earlier
ones, exactly as object-literal keys and spreads do. -/
abbrev JObj : Type := List (String × JsonValue)

/-- Lookup with last-binding-wins semantics: the value observed for key `k`
on the JavaScript object that the literal/spread sequence denotes. -/
def JObj.jget : JObj → String → Option JsonValue
  | [], _ => none
  | p :: rest, k =>
    match JObj.jget rest k with
    | some v => some v
    | none => if p.1 == k then some p.2 else none

/-- Source of an `ImageBlock` (`block.source.type` discriminates). -/
inductive ImageSource : Type where
  | imageSourceBytes (bytes : String) : ImageSource
  | otherSource (type : String) : ImageSource

/-- One item inside a `ToolResultBlock.content`: either structured JSON
(the `json` property is present) or plain text. -/
inductive ToolResultItem : Type where
  | json (v : JsonValue) : ToolResultItem
  | text (t : String) : ToolResultItem

/-- Content block of a Strands message.  The formatter tests the block class
with `instanceof` chains; a block matching none of the four classes falls
through and is skipped, embedded here as `otherBlock`. -/
inductive ContentBlock : Type where
  | text (text : String) : ContentBlock
  | image (source : ImageSource) : ContentBlock
  | toolUse (name : String) (input : JsonValue) : ContentBlock
  | toolResult (content : List ToolResultItem) : ContentBlock
  | otherBlock : ContentBlock

/-- Strands message: a role and an ordered list of content blocks. -/
structure Message : Type where
  role : String
  content : List ContentBlock

/-- Block of a block-sequence system prompt.  The source tests
`"text" in b`; a block with a `text` property contributes its text, any
other block contributes the empty string. -/
inductive PromptBlock : Type where
  | textBlock (text : String) : PromptBlock
  | otherPromptBlock : PromptBlock

/-- System prompt as accepted by `StreamOptions`: a plain string or a
sequence of blocks. -/
inductive SystemPrompt : Type where
  | str (s : String) : SystemPrompt
  | blocks (bs : List PromptBlock) : SystemPrompt

/-- Declared tool spec (name, description, input schema). -/
structure ToolSpec : Type where
  name : String
  description : String
  inputSchema : JsonValue

/-- Per-call stream options. -/
structure StreamOptions : Type where
  systemPrompt : Option SystemPrompt := none
  toolSpecs : Option (List ToolSpec) := none

/-- Provider configuration (`OllamaModelConfig`).  Scalar sampling fields are
opaque `JsonValue`s; an absent optional field is `none`. -/
structure OllamaModelConfig : Type where
  modelId : String
  host : Option String := none
  temperature : Option JsonValue := none
  maxTokens : Option JsonValue := none
  topP : Option JsonValue := none
  stopSequences : Option (List String) := none
  keepAlive : Option JsonValue := none
  options : Option JObj := none
  params : Option JObj := none

/-- JavaScript truthiness of the `systemPrompt` value: the empty string is
falsy, every non-empty string and every array (even empty) is truthy. -/
def promptTruthy : SystemPrompt → Bool
  | .str s => !(s == "")
  | .blocks _ => true

/-- Content of the synthetic system message:
`typeof p === "string" ? p : p.map(b => "text" in b ? b.text : "").join("")`. -/
def systemPromptContent : SystemPrompt → String
  | .str s => s
  | .blocks bs => String.join (bs.map fun b =>
      match b with
      | .textBlock t => t
      | .otherPromptBlock => "")

/-- One entry of a formatted `tool_calls` array:
`{function: {name, arguments}}`. -/
structure ToolCallEntry : Type where
  name : String
  arguments : JsonValue

/-- Message in Ollama wire format, as pushed onto `formattedMessages`:
`{role, content}`, `{role, images}`, or `{role, tool_calls}`. -/
inductive FormattedMessage : Type where
  | content (role : String) (content : String) : FormattedMessage
  | images (role : String) (images : List String) : FormattedMessage
  | toolCalls (role : String) (tool_calls : List ToolCallEntry) : FormattedMessage

/-- Role of a formatted message. -/
def FormattedMessage.role : FormattedMessage → String
  | .content r _ => r
  | .images r _ => r
  | .toolCalls r _ => r

/-- Content of one flattened tool-result message: the ternary
`"json" in result ? JSON.stringify(result.json) : result.text`. -/
def toolResultContent : ToolResultItem → String
  | .json v => v.stringify
  | .text t => t

/-- Translation of one content block, mirroring the `instanceof` chain in
`_formatRequest`: text becomes `{role, content}`, an inline-bytes image
becomes `{role, images:[bytes]}` (other image sources are skipped), a tool
use becomes `{role, tool_calls:[...]}`, and a tool result is flattened into
one `{role:"tool", content}` message per result item. -/
def formatBlock (role : String) : ContentBlock → List FormattedMessage
  | .text t => [.content role t]
  | .image src =>
    match src with
    | .imageSourceBytes b => [.images role [b]]
    | .otherSource _ => []
  | .toolUse name input => [.toolCalls role [⟨name, input⟩]]
  | .toolResult items => items.map fun it => .content "tool" (toolResultContent it)
  | .otherBlock => []

/-- Flattening of the conversation: both loops of `_formatRequest`. -/
def formatMessagesCore (messages : List Message) : List FormattedMessage :=
  messages.flatMap fun m => m.content.flatMap (formatBlock m.role)

/-- Synthetic system message list: one `{role:"system", content}` message
when `options?.systemPrompt` is present and truthy, else nothing. -/
def systemMessages (options : Option StreamOptions) : List FormattedMessage :=
  match options with
  | none => []
  | some o =>
    match o.systemPrompt with
    | none => []
    | some sp => if promptTruthy sp then [.content "system" (systemPromptContent sp)] else []

/-- Full `formattedMessages` list built by `_formatRequest`. -/
def formatMessagesFull (messages : List Message) (options : Option StreamOptions) :
    List FormattedMessage :=
  systemMessages options ++ formatMessagesCore messages

/-- Wire shape of a formatted message. -/
def FormattedMessage.toJson : FormattedMessage → JsonValue
  | .content r c => .obj [("role", .str r), ("content", .str c)]
  | .images r imgs => .obj [("role", .str r), ("images", .arr (imgs.map .str))]
  | .toolCalls r calls =>
    .obj [("role", .str r),
          ("tool_calls", .arr (calls.map fun c =>
            .obj [("function", .obj [("name", .str c.name), ("arguments", c.arguments)])]))]

/-- Nested `options` object of the request: mapped sampling parameters with
the config `options` bag spread over them last. -/
def requestOptions (cfg : OllamaModelConfig) : JObj :=
  [("temperature", cfg.temperature.getD JsonValue.undef),
   ("num_predict", cfg.maxTokens.getD JsonValue.undef),
   ("top_p", cfg.topP.getD JsonValue.undef),
   ("stop", match cfg.stopSequences with
     | some l => .arr (l.map .str)
     | none => .undef)]
  ++ cfg.options.getD []

/-- Wire shape of the declared tools: `options?.toolSpecs?.map(...)`,
`undef` when options or toolSpecs are absent. -/
def toolsJson (options : Option StreamOptions) : JsonValue :=
  match options with
  | none => .undef
  | some o =>
    match o.toolSpecs with
    | none => .undef
    | some specs => .arr (specs.map fun s =>
        .obj [("type", .str "function"),
              ("function", .obj [("name", .str s.name),
                                 ("description", .str s.description),
                                 ("parameters", s.inputSchema)])])

namespace OllamaModel

/-- Embedding of `OllamaModel._formatRequest`: the request object literal with
the config `params` bag spread over the entire request last. -/
def _formatRequest (cfg : OllamaModelConfig) (messages : List Message)
    (options : Option StreamOptions) : JObj :=
  [("model", .str cfg.modelId),
   ("messages", .arr ((formatMessagesFull messages options).map FormattedMessage.toJson)),
   ("stream", .bool true),
   ("options", .obj (requestOptions cfg)),
   ("keep_alive", cfg.keepAlive.getD JsonValue.undef),
   ("tools", toolsJson options)]
  ++ cfg.params.getD []

end OllamaModel

/-- Descriptor of one tool call inside a response chunk:
`tc.function.name` and `tc.function.arguments`. -/
structure ToolCallDesc : Type where
  name : String
  arguments : JsonValue

/-- One increment of the Ollama response stream, with the fields `stream`
reads.  `content` is `chunk.message?.content` with the empty string standing
for an absent message or absent content (both are falsy and behave
identically); `tool_calls` is `none` when `chunk.message?.tool_calls` is
absent, `some l` (possibly with `l = []`, which is truthy in JavaScript but
yields no events) otherwise. -/
structure WireChunk : Type where
  content : String := ""
  tool_calls : Option (List ToolCallDesc) := none
  done : Bool := false
  prompt_eval_count : Option Nat := none
  eval_count : Option Nat := none

/-- Stop reason of the final event. -/
inductive StopReason : Type where
  | toolUse : StopReason
  | endTurn : StopReason
deriving DecidableEq

/-- Lifecycle events yielded by `stream`, with the payload fields the source
constructs.  The two delta sub-kinds (`textDelta` / `toolUseInputDelta`) are
separate constructors. -/
inductive ModelStreamEvent : Type where
  | modelMessageStartEvent (role : String) : ModelStreamEvent
  | modelContentBlockStartEvent (toolUseId : String) (name : String) : ModelStreamEvent
  | modelContentBlockDeltaEventText (text : String) : ModelStreamEvent
  | modelContentBlockDeltaEventToolInput (input : String) : ModelStreamEvent
  | modelContentBlockStopEvent : ModelStreamEvent
  | modelMetadataEvent (inputTokens outputTokens totalTokens : Nat) : ModelStreamEvent
  | modelMessageStopEvent (stopReason : StopReason) : ModelStreamEvent
deriving DecidableEq

/-- Per-invocation generator state: the sticky `toolRequested` flag and the
index of the next fresh tool-use id to draw from the id source. -/
structure StreamState : Type where
  toolRequested : Bool
  nextId : Nat

/-- Events for the text content of a chunk:
`if (chunk.message?.content) yield textDelta`. -/
def textEvents (c : WireChunk) : List ModelStreamEvent :=
  if c.content == "" then [] else [.modelContentBlockDeltaEventText c.content]

/-- Inner loop over `chunk.message.tool_calls`: for each descriptor, yield
start (with a fresh id drawn from `gen`), the serialized-arguments delta,
and stop; set the sticky flag.  `gen` models the ambient
`Math.random().toString(36).substring(2, 9)` source, indexed by how many ids
were drawn so far in this invocation. -/
def processToolCalls (gen : Nat → String) :
    StreamState → List ToolCallDesc → List ModelStreamEvent × StreamState
  | st, [] => ([], st)
  | st, tc :: rest =>
    let evs : List ModelStreamEvent :=
      [.modelContentBlockStartEvent ("call_" ++ gen st.nextId) tc.name,
       .modelContentBlockDeltaEventToolInput tc.arguments.stringify,
       .modelContentBlockStopEvent]
    let r := processToolCalls gen ⟨true, st.nextId + 1⟩ rest
    (evs ++ r.1, r.2)

/-- Optional metadata event of the done branch, guarded by
`chunk.prompt_eval_count !== undefined`; `chunk.eval_count || 0` defaults an
absent completion count to zero, and `totalTokens` is the sum of the two
defaulted counts. -/
def metaEvents (c : WireChunk) : List ModelStreamEvent :=
  match c.prompt_eval_count with
  | some p => [.modelMetadataEvent p (c.eval_count.getD 0) (p + c.eval_count.getD 0)]
  | none => []

/-- Events for the `chunk.done` branch: the optional metadata event followed
by the message-stop event whose reason reads the sticky flag as updated by
this very chunk. -/
def doneEvents (st : StreamState) (c : WireChunk) : List ModelStreamEvent :=
  if c.done then
    metaEvents c
    ++ [.modelMessageStopEvent (if st.toolRequested then .toolUse else .endTurn)]
  else []

/-- Translation of one chunk, in source order: text delta, then tool-call
blocks, then the done branch (which sees the state updated by the tool
calls of the same chunk). -/
def processChunk (gen : Nat → String) (st : StreamState) (c : WireChunk) :
    List ModelStreamEvent × StreamState :=
  let tc := match c.tool_calls with
    | some tcs => processToolCalls gen st tcs
    | none => ([], st)
  (textEvents c ++ tc.1 ++ doneEvents tc.2 c, tc.2)

/-- Translation of the delivered chunk sequence, threading the state. -/
def processChunks (gen : Nat → String) (st : StreamState) :
    List WireChunk → List ModelStreamEvent
  | [] => []
  | c :: rest =>
    let r := processChunk gen st c
    r.1 ++ processChunks gen r.2 rest

/-- Outcome of the transport after delivering its chunks: normal completion,
or an error raised while opening or iterating the stream (an open failure is
the outcome `err e` with zero chunks delivered). -/
inductive TransportOutcome (ε : Type) : Type where
  | ok : TransportOutcome ε
  | err (e : ε) : TransportOutcome ε

/-- Calls observed on the logger collaborator, one counter per channel. -/
structure LogCounts : Type where
  debug : Nat := 0
  info : Nat := 0
  warn : Nat := 0
  error : Nat := 0
deriving DecidableEq

/-- Observable result of one `stream` invocation: the wire request passed to
the transport, the lifecycle events yielded before the generator returned or
threw, the outcome presented to the caller (`Except.error e` re-raises the
transport error unchanged), and the logger calls made. -/
structure StreamResult (ε : Type) : Type where
  request : JObj
  events : List ModelStreamEvent
  outcome : Except ε Unit
  log : LogCounts

/-- Embedding of `OllamaModel.stream` as a function of the transport
behaviour: the request is formatted, message-start is yielded before the
try block, each delivered chunk is translated in arrival order, and a
transport error is logged once at error level and re-thrown unchanged after
the events of the delivered chunks. -/
def OllamaModel.stream {ε : Type} (gen : Nat → String) (cfg : OllamaModelConfig)
    (messages : List Message) (options : Option StreamOptions)
    (chunks : List WireChunk) (tr : TransportOutcome ε) : StreamResult ε :=
  let request := OllamaModel._formatRequest cfg messages options
  let events := ModelStreamEvent.modelMessageStartEvent "assistant"
    :: processChunks gen ⟨false, 0⟩ chunks
  match tr with
  | .ok => ⟨request, events, .ok (), {}⟩
  | .err e => ⟨request, events, .error e, { error := 1 }⟩

/-- Predicate picking out message-start events. -/
def isMessageStart : ModelStreamEvent → Bool
  | .modelMessageStartEvent _ => true
  | _ => false

/-- Predicate picking out message-stop events. -/
def isMessageStop : ModelStreamEvent → Bool
  | .modelMessageStopEvent _ => true
  | _ => false

/-- Predicate picking out metadata events. -/
def isMetadata : ModelStreamEvent → Bool
  | .modelMetadataEvent _ _ _ => true
  | _ => false

/-- Chunk sequences a successfully completing transport can deliver: at
least one chunk, `done` false on every chunk but the last and true on the
last (the terminal chunk of the logical chunk contract). -/
def wellFormedChunks : List WireChunk → Bool
  | [] => false
  | [c] => c.done
  | c :: rest => !c.done && wellFormedChunks rest

/-- Does the chunk carry at least one tool-call descriptor?  (An absent or
empty `tool_calls` array yields no events and leaves the flag unset.) -/
def chunkHasToolCall (c : WireChunk) : Bool :=
  match c.tool_calls with
  | some (_ :: _) => true
  | _ => false

/-- Concrete id source used by witnesses and counterexamples. -/
def genR : Nat → String := fun _ => "r"

/-- Concrete configuration used by witnesses and counterexamples. -/
def cfg0 : OllamaModelConfig := { modelId := "m" }

/-- Last-binding-wins lookup over a spread: a binding in the overriding
object wins, otherwise the base object is consulted. -/
lemma JObj.jget_append (a b : JObj) (k : String) :
    JObj.jget (a ++ b) k =
      match JObj.jget b k with
      | some v => some v
      | none => JObj.jget a k := by
  induction a with
  | nil =>
    cases h : JObj.jget b k <;> simp [JObj.jget, h]
  | cons p a ih =>
    simp only [List.cons_append, JObj.jget, List.append_eq]
    rw [ih]
    cases hb : JObj.jget b k <;> cases ha : JObj.jget a k <;> simp

/-- The inner tool-call loop only yields block-start, tool-input-delta and
block-stop events: any predicate false on those three shapes counts zero. -/
lemma processToolCalls_countP (gen : Nat → String) (p : ModelStreamEvent → Bool)
    (h1 : ∀ i n, p (.modelContentBlockStartEvent i n) = false)
    (h2 : ∀ s, p (.modelContentBlockDeltaEventToolInput s) = false)
    (h3 : p .modelContentBlockStopEvent = false) :
    ∀ (tcs : List ToolCallDesc) (st : StreamState),
      ((processToolCalls gen st tcs).1).countP p = 0 := by
  intro tcs
  induction tcs with
  | nil => intro st; simp [processToolCalls]
  | cons tc rest ih =>
    intro st
    simp [processToolCalls, List.countP_cons, h1, h2, h3, ih]

/-- The sticky flag after the inner loop: set iff it was set before or the
chunk carried at least one descriptor. -/
lemma processToolCalls_toolRequested (gen : Nat → String) :
    ∀ (tcs : List ToolCallDesc) (st : StreamState),
      ((processToolCalls gen st tcs).2).toolRequested
        = (st.toolRequested || !tcs.isEmpty) := by
  intro tcs
  induction tcs with
  | nil => intro st; simp [processToolCalls]
  | cons tc rest ih =>
    intro st
    simp [processToolCalls, ih]

/-- The sticky flag after one chunk. -/
lemma processChunk_toolRequested (gen : Nat → String) (st : StreamState) (c : WireChunk) :
    ((processChunk gen st c).2).toolRequested
      = (st.toolRequested || chunkHasToolCall c) := by
  unfold processChunk chunkHasToolCall
  cases h : c.tool_calls with
  | none => simp
  | some tcs =>
    cases tcs with
    | nil => simp [processToolCalls]
    | cons tc rest => simp [processToolCalls_toolRequested]

/-- Text events never contain a lifecycle event of another kind. -/
lemma textEvents_countP (c : WireChunk) (p : ModelStreamEvent → Bool)
    (h4 : ∀ t, p (.modelContentBlockDeltaEventText t) = false) :
    (textEvents c).countP p = 0 := by
  unfold textEvents
  split <;> simp [List.countP_cons, h4]

/-- A chunk not marked done yields no message-start, message-stop or
metadata event. -/
lemma processChunk_countP_not_done (gen : Nat → String) (st : StreamState)
    (c : WireChunk) (hdone : c.done = false) (p : ModelStreamEvent → Bool)
    (h1 : ∀ i n, p (.modelContentBlockStartEvent i n) = false)
    (h2 : ∀ s, p (.modelContentBlockDeltaEventToolInput s) = false)
    (h3 : p .modelContentBlockStopEvent = false)
    (h4 : ∀ t, p (.modelContentBlockDeltaEventText t) = false) :
    ((processChunk gen st c).1).countP p = 0 := by
  unfold processChunk doneEvents
  cases h : c.tool_calls with
  | none => simp [hdone, List.countP_append, textEvents_countP c p h4]
  | some tcs =>
    simp [hdone, List.countP_append, textEvents_countP c p h4,
      processToolCalls_countP gen p h1 h2 h3]

/-- Metadata events carry no message-stop and no message-start. -/
lemma metaEvents_countP (c : WireChunk) (p : ModelStreamEvent → Bool)
    (h : ∀ a b t, p (.modelMetadataEvent a b t) = false) :
    (metaEvents c).countP p = 0 := by
  unfold metaEvents
  cases c.prompt_eval_count <;> simp [List.countP_cons, h]

/-- Translation of a terminal (done) chunk: some block/text events, then the
optional metadata of that chunk, then one message-stop whose reason reads
the flag as updated by the tool calls of this very chunk. -/
lemma processChunk_fst_done (gen : Nat → String) (st : StreamState) (c : WireChunk)
    (hdone : c.done = true) :
    ∃ pre,
      (processChunk gen st c).1
        = pre ++ metaEvents c
          ++ [.modelMessageStopEvent
               (if st.toolRequested || chunkHasToolCall c then .toolUse else .endTurn)]
      ∧ pre.countP isMessageStop = 0
      ∧ pre.countP isMetadata = 0
      ∧ pre.countP isMessageStart = 0 := by
  unfold processChunk doneEvents
  cases htc : c.tool_calls with
  | none =>
    refine ⟨textEvents c, ?_, ?_, ?_, ?_⟩
    · simp [hdone, chunkHasToolCall, htc]
    all_goals exact textEvents_countP c _ (by intro t; rfl)
  | some tcs =>
    refine ⟨textEvents c ++ (processToolCalls gen st tcs).1, ?_, ?_, ?_, ?_⟩
    · have hflag : ((processToolCalls gen st tcs).2).toolRequested
        = (st.toolRequested || chunkHasToolCall c) := by
        rw [processToolCalls_toolRequested]
        cases tcs <;> simp [chunkHasToolCall, htc]
      simp [hdone, hflag]
    all_goals
      rw [List.countP_append]
      rw [textEvents_countP c _ (by intro t; rfl),
        processToolCalls_countP gen _ (by intro i n; rfl) (by intro s; rfl) rfl]

/-- Master shape lemma: on a chunk sequence a successfully completing
transport can deliver, the translated events are a stretch of text and
tool-block events containing no message-start, message-stop or metadata,
then the optional metadata of the terminal chunk, then exactly one
message-stop whose reason reflects whether any chunk of the whole sequence
(terminal chunk included) carried a tool call. -/
lemma processChunks_wf_split (gen : Nat → String) :
    ∀ (chunks : List WireChunk), wellFormedChunks chunks = true →
      ∀ (st : StreamState),
      ∃ (pre : List ModelStreamEvent) (L : WireChunk),
        chunks.getLast? = some L
        ∧ processChunks gen st chunks
            = pre ++ metaEvents L
              ++ [.modelMessageStopEvent
                   (if st.toolRequested || chunks.any chunkHasToolCall
                    then .toolUse else .endTurn)]
        ∧ pre.countP isMessageStop = 0
        ∧ pre.countP isMetadata = 0
        ∧ pre.countP isMessageStart = 0 := by
  intro chunks
  induction chunks with
  | nil => intro h; simp [wellFormedChunks] at h
  | cons c rest ih =>
    intro h st
    cases rest with
    | nil =>
      have hdone : c.done = true := by simpa [wellFormedChunks] using h
      obtain ⟨pre, heq, hstop, hmeta, hstart⟩ := processChunk_fst_done gen st c hdone
      refine ⟨pre, c, rfl, ?_, hstop, hmeta, hstart⟩
      simp [processChunks, heq]
    | cons c2 rest2 =>
      have h' : c.done = false ∧ wellFormedChunks (c2 :: rest2) = true := by
        simpa [wellFormedChunks] using h
      obtain ⟨pre, L, hL, heq, hstop, hmeta, hstart⟩ :=
        ih h'.2 (processChunk gen st c).2
      refine ⟨(processChunk gen st c).1 ++ pre, L, ?_, ?_, ?_, ?_, ?_⟩
      · rw [List.getLast?_cons_cons]; exact hL
      · show (processChunk gen st c).1 ++ processChunks gen (processChunk gen st c).2 (c2 :: rest2) = _
        rw [heq, processChunk_toolRequested]
        simp [List.append_assoc, List.any_cons, Bool.or_assoc]
      all_goals
        rw [List.countP_append]
      · rw [hstop, processChunk_countP_not_done gen st c h'.1 isMessageStop
          (by intro i n; rfl) (by intro s; rfl) rfl (by intro t; rfl)]
      · rw [hmeta, processChunk_countP_not_done gen st c h'.1 isMetadata
          (by intro i n; rfl) (by intro s; rfl) rfl (by intro t; rfl)]
      · rw [hstart, processChunk_countP_not_done gen st c h'.1 isMessageStart
          (by intro i n; rfl) (by intro s; rfl) rfl (by intro t; rfl)]

/-- C1: on every response stream the transport completes successfully (a
well-formed chunk sequence ending in the done chunk, no transport error),
the event sequence of `stream` starts with the unique message-start event
and ends with the unique message-stop event. -/
theorem C1_unique_start_stop (gen : Nat → String) (cfg : OllamaModelConfig)
    (m : List Message) (o : Option StreamOptions) (chunks : List WireChunk)
    (hwf : wellFormedChunks chunks = true) :
    ((OllamaModel.stream gen cfg m o chunks (.ok : TransportOutcome Unit)).events).head?
        = some (.modelMessageStartEvent "assistant")
    ∧ ((OllamaModel.stream gen cfg m o chunks (.ok : TransportOutcome Unit)).events).countP
        isMessageStart = 1
    ∧ ((OllamaModel.stream gen cfg m o chunks (.ok : TransportOutcome Unit)).events).countP
        isMessageStop = 1
    ∧ ∃ r, ((OllamaModel.stream gen cfg m o chunks
        (.ok : TransportOutcome Unit)).events).getLast?
          = some (.modelMessageStopEvent r) := by
  obtain ⟨pre, L, hL, heq, hstop, hmeta, hstart⟩ :=
    processChunks_wf_split gen chunks hwf ⟨false, 0⟩
  have hev : (OllamaModel.stream gen cfg m o chunks (.ok : TransportOutcome Unit)).events
      = ModelStreamEvent.modelMessageStartEvent "assistant"
        :: processChunks gen ⟨false, 0⟩ chunks := rfl
  rw [hev, heq]
  refine ⟨rfl, ?_, ?_, ?_⟩
  · simp [List.countP_cons, List.countP_append, hstart, isMessageStart,
      metaEvents_countP L isMessageStart (by intro a b t; rfl)]
  · simp [List.countP_cons, List.countP_append, hstop, isMessageStop,
      metaEvents_countP L isMessageStop (by intro a b t; rfl)]
  · have hshape :
        ModelStreamEvent.modelMessageStartEvent "assistant"
          :: (pre ++ metaEvents L
            ++ [ModelStreamEvent.modelMessageStopEvent
                 (if (⟨false, 0⟩ : StreamState).toolRequested
                     || chunks.any chunkHasToolCall
                  then .toolUse else .endTurn)])
        = (ModelStreamEvent.modelMessageStartEvent "assistant" :: (pre ++ metaEvents L))
          ++ [ModelStreamEvent.modelMessageStopEvent
               (if (⟨false, 0⟩ : StreamState).toolRequested
                   || chunks.any chunkHasToolCall
                then .toolUse else .endTurn)] := by
      simp
    rw [hshape]
    exact ⟨_, List.getLast?_concat _⟩

/-- Witness for C1 at the one-chunk stream whose only chunk is done. -/
theorem C1_unique_start_stop_witness :
    wellFormedChunks [({ done := true } : WireChunk)] = true
    ∧ ∃ r, ((OllamaModel.stream genR cfg0 [] none [({ done := true } : WireChunk)]
        (.ok : TransportOutcome Unit)).events).getLast?
          = some (.modelMessageStopEvent r) :=
  ⟨rfl, (C1_unique_start_stop genR cfg0 [] none [{ done := true }] rfl).2.2.2⟩

/-- Well-formedness of tool-use blocks inside an event sequence: every
content-block-start is immediately followed by exactly one tool-input delta
and then one content-block-stop before anything else happens (blocks are
never interleaved). -/
def toolBlocksWF : List ModelStreamEvent → Bool
  | [] => true
  | .modelContentBlockStartEvent _ _ :: .modelContentBlockDeltaEventToolInput _
      :: .modelContentBlockStopEvent :: rest => toolBlocksWF rest
  | .modelContentBlockStartEvent _ _ :: _ => false
  | _ :: rest => toolBlocksWF rest

/-- Predicate picking out content-block-start events. -/
def isBlockStart : ModelStreamEvent → Bool
  | .modelContentBlockStartEvent _ _ => true
  | _ => false

/-- Prepending an event that is not a block start preserves the
well-formedness computation. -/
lemma toolBlocksWF_cons_neutral (e : ModelStreamEvent) (h : isBlockStart e = false)
    (ys : List ModelStreamEvent) : toolBlocksWF (e :: ys) = toolBlocksWF ys := by
  cases e <;> simp [isBlockStart] at h ⊢ <;> rfl

/-- Prepending a list free of block starts preserves the well-formedness
computation. -/
lemma toolBlocksWF_append_neutral (xs : List ModelStreamEvent)
    (h : ∀ e ∈ xs, isBlockStart e = false) (ys : List ModelStreamEvent) :
    toolBlocksWF (xs ++ ys) = toolBlocksWF ys := by
  induction xs with
  | nil => rfl
  | cons e xs ih =>
    rw [List.cons_append, toolBlocksWF_cons_neutral e (h e (List.mem_cons_self e xs)),
      ih (fun x hx => h x (List.mem_cons_of_mem e hx))]

/-- The inner tool-call loop emits complete, uninterleaved blocks: its
events consume the well-formedness check exactly. -/
lemma toolBlocksWF_processToolCalls (gen : Nat → String) :
    ∀ (tcs : List ToolCallDesc) (st : StreamState) (ys : List ModelStreamEvent),
      toolBlocksWF ((processToolCalls gen st tcs).1 ++ ys) = toolBlocksWF ys := by
  intro tcs
  induction tcs with
  | nil => intro st ys; rfl
  | cons tc rest ih =>
    intro st ys
    show toolBlocksWF (.modelContentBlockStartEvent _ _
      :: .modelContentBlockDeltaEventToolInput _
      :: .modelContentBlockStopEvent :: ((processToolCalls gen _ rest).1 ++ ys)) = _
    rw [toolBlocksWF]
    exact ih _ ys

/-- Text events carry no block start. -/
lemma textEvents_no_blockStart (c : WireChunk) :
    ∀ e ∈ textEvents c, isBlockStart e = false := by
  unfold textEvents
  split <;> simp [isBlockStart]

/-- Done events carry no block start. -/
lemma doneEvents_no_blockStart (st : StreamState) (c : WireChunk) :
    ∀ e ∈ doneEvents st c, isBlockStart e = false := by
  unfold doneEvents metaEvents
  split
  · cases c.prompt_eval_count <;> simp [isBlockStart]
  · simp

/-- One chunk preserves the well-formedness computation. -/
lemma toolBlocksWF_processChunk (gen : Nat → String) (st : StreamState)
    (c : WireChunk) (ys : List ModelStreamEvent) :
    toolBlocksWF ((processChunk gen st c).1 ++ ys) = toolBlocksWF ys := by
  unfold processChunk
  cases htc : c.tool_calls with
  | none =>
    simp only [List.append_assoc]
    rw [toolBlocksWF_append_neutral _ (textEvents_no_blockStart c),
      List.nil_append,
      toolBlocksWF_append_neutral _ (doneEvents_no_blockStart st c)]
  | some tcs =>
    simp only [List.append_assoc]
    rw [toolBlocksWF_append_neutral _ (textEvents_no_blockStart c),
      toolBlocksWF_processToolCalls gen tcs st,
      toolBlocksWF_append_neutral _ (doneEvents_no_blockStart _ c)]

/-- The whole chunk sequence preserves the well-formedness computation. -/
lemma toolBlocksWF_processChunks (gen : Nat → String) :
    ∀ (chunks : List WireChunk) (st : StreamState),
      toolBlocksWF (processChunks gen st chunks) = true := by
  intro chunks
  induction chunks with
  | nil => intro st; rfl
  | cons c rest ih =>
    intro st
    show toolBlocksWF ((processChunk gen st c).1
      ++ processChunks gen (processChunk gen st c).2 rest) = true
    rw [toolBlocksWF_processChunk]
    exact ih _

/-- Expected event shape for the tool-call descriptors of one chunk, written
from the spec: for each descriptor in the order it appears, a block start
carrying a freshly drawn id and the function name, then exactly one delta
carrying the JSON-serialized arguments, then exactly one stop, before the
next tool call starts. -/
def specToolCallEvents (gen : Nat → String) : Nat → List ToolCallDesc →
    List ModelStreamEvent
  | _, [] => []
  | n, tc :: rest =>
    .modelContentBlockStartEvent ("call_" ++ gen n) tc.name
      :: .modelContentBlockDeltaEventToolInput tc.arguments.stringify
      :: .modelContentBlockStopEvent
      :: specToolCallEvents gen (n + 1) rest

/-- C2: the events for a chunk with tool-call descriptors are, per
descriptor in chunk order, start (fresh id, descriptor name), one
JSON-serialized-arguments delta, one stop; and over every event sequence
`stream` can produce (any chunk sequence, any transport outcome), tool-use
blocks are complete and never interleaved. -/
theorem C2_tool_blocks (gen : Nat → String) :
    (∀ (cfg : OllamaModelConfig) (m : List Message) (o : Option StreamOptions)
       (chunks : List WireChunk) (tr : TransportOutcome Unit),
      toolBlocksWF (OllamaModel.stream gen cfg m o chunks tr).events = true)
    ∧ (∀ (st : StreamState) (tcs : List ToolCallDesc),
      (processToolCalls gen st tcs).1 = specToolCallEvents gen st.nextId tcs) := by
  constructor
  · intro cfg m o chunks tr
    have hev : (OllamaModel.stream gen cfg m o chunks tr).events
        = ModelStreamEvent.modelMessageStartEvent "assistant"
          :: processChunks gen ⟨false, 0⟩ chunks := by
      cases tr <;> rfl
    rw [hev,
      toolBlocksWF_cons_neutral (.modelMessageStartEvent "assistant") rfl,
      toolBlocksWF_processChunks]
  · intro st tcs
    induction tcs generalizing st with
    | nil => rfl
    | cons tc rest ih =>
      show _ :: _ :: _ :: (processToolCalls gen ⟨true, st.nextId + 1⟩ rest).1 = _
      rw [ih ⟨true, st.nextId + 1⟩]
      rfl

/-- C3: the request built by `_formatRequest` carries `stream: true` (the
mapped field, observed whenever the params bag does not override it), and
the config params bag is shallow-merged over the entire request last, so
every key present in params (including `model`, `messages` and `stream`)
is observed with the params value, overriding the mapped fields. -/
theorem C3_params_override_stream_true (cfg : OllamaModelConfig)
    (m : List Message) (o : Option StreamOptions) (ps : JObj)
    (hps : cfg.params = some ps) :
    (∀ k v, JObj.jget ps k = some v →
      JObj.jget (OllamaModel._formatRequest cfg m o) k = some v)
    ∧ (JObj.jget ps "stream" = none →
      JObj.jget (OllamaModel._formatRequest cfg m o) "stream"
        = some (.bool true)) := by
  have hreq : OllamaModel._formatRequest cfg m o
      = [("model", .str cfg.modelId),
         ("messages", .arr ((formatMessagesFull m o).map FormattedMessage.toJson)),
         ("stream", .bool true),
         ("options", .obj (requestOptions cfg)),
         ("keep_alive", cfg.keepAlive.getD JsonValue.undef),
         ("tools", toolsJson o)]
        ++ ps := by
    unfold OllamaModel._formatRequest
    rw [hps]
    rfl
  constructor
  · intro k v hk
    rw [hreq, JObj.jget_append, hk]
  · intro hnone
    rw [hreq, JObj.jget_append, hnone]
    rfl

/-- Witness for C3: a params bag overriding the `stream` key is observed on
the request, and with an empty params bag the mapped `stream: true` shows. -/
theorem C3_params_override_stream_true_witness :
    JObj.jget (OllamaModel._formatRequest
        { cfg0 with params := some [("stream", JsonValue.bool false)] } [] none) "stream"
      = some (.bool false)
    ∧ JObj.jget (OllamaModel._formatRequest
        { cfg0 with params := some [] } [] none) "stream"
      = some (.bool true) :=
  ⟨(C3_params_override_stream_true
      { cfg0 with params := some [("stream", JsonValue.bool false)] } [] none
      [("stream", JsonValue.bool false)] rfl).1 "stream" (JsonValue.bool false) rfl,
   (C3_params_override_stream_true
      { cfg0 with params := some [] } [] none [] rfl).2 rfl⟩

/-- Counterexample to C4 as stated: a terminal done chunk carrying a prompt
token count but NO completion token count still triggers a metadata event
(with outputTokens defaulted to 0), because the code guards only on
`prompt_eval_count !== undefined`; under the claim (metadata iff the chunk
carries prompt and completion counts) no metadata event would appear here. -/
theorem C4_counterexample :
    ({ done := true, prompt_eval_count := some 10 } : WireChunk).eval_count = none
    ∧ (OllamaModel.stream genR cfg0 [] none
        [({ done := true, prompt_eval_count := some 10 } : WireChunk)]
        (.ok : TransportOutcome Unit)).events
      = [.modelMessageStartEvent "assistant",
         .modelMetadataEvent 10 0 10,
         .modelMessageStopEvent .endTurn]
    ∧ ((OllamaModel.stream genR cfg0 [] none
        [({ done := true, prompt_eval_count := some 10 } : WireChunk)]
        (.ok : TransportOutcome Unit)).events).countP isMetadata = 1 :=
  ⟨rfl, rfl, rfl⟩

/-- C4 (amended): a metadata event is emitted iff the terminal done chunk
carries a prompt token count; when emitted it appears exactly once,
immediately before message-stop, with inputTokens the prompt count,
outputTokens the completion count defaulted to 0 when absent, and
totalTokens their sum, all derived from the terminal chunk only. -/
theorem C4_metadata_amended (gen : Nat → String) (cfg : OllamaModelConfig)
    (m : List Message) (o : Option StreamOptions) (chunks : List WireChunk)
    (L : WireChunk) (hwf : wellFormedChunks chunks = true)
    (hL : chunks.getLast? = some L) :
    (∀ p, L.prompt_eval_count = some p →
      ∃ pre r,
        (OllamaModel.stream gen cfg m o chunks (.ok : TransportOutcome Unit)).events
          = pre ++ [.modelMetadataEvent p (L.eval_count.getD 0) (p + L.eval_count.getD 0),
                    .modelMessageStopEvent r]
        ∧ pre.countP isMetadata = 0)
    ∧ (L.prompt_eval_count = none →
      ((OllamaModel.stream gen cfg m o chunks
          (.ok : TransportOutcome Unit)).events).countP isMetadata = 0) := by
  obtain ⟨pre, L', hL', heq, hstop, hmeta, hstart⟩ :=
    processChunks_wf_split gen chunks hwf ⟨false, 0⟩
  have hLL : L' = L := by rw [hL] at hL'; exact (Option.some.inj hL').symm
  subst hLL
  have hev : (OllamaModel.stream gen cfg m o chunks (.ok : TransportOutcome Unit)).events
      = ModelStreamEvent.modelMessageStartEvent "assistant"
        :: processChunks gen ⟨false, 0⟩ chunks := rfl
  constructor
  · intro p hp
    refine ⟨ModelStreamEvent.modelMessageStartEvent "assistant" :: pre,
      if ((⟨false, 0⟩ : StreamState).toolRequested || chunks.any chunkHasToolCall)
      then StopReason.toolUse else StopReason.endTurn, ?_, ?_⟩
    · rw [hev, heq]
      unfold metaEvents
      rw [hp]
      simp
    · simp [List.countP_cons, hmeta, isMetadata]
  · intro hp
    rw [hev, heq]
    unfold metaEvents
    rw [hp]
    simp [List.countP_cons, List.countP_append, hmeta, isMetadata]

/-- Witness for C4 (amended), exercising both directions: a terminal chunk
with prompt count 10 and completion count 5 yields one metadata event with
totals 10/5/15 immediately before message-stop, and a terminal chunk with
no prompt count yields no metadata event. -/
theorem C4_metadata_amended_witness :
    (∃ pre r,
      (OllamaModel.stream genR cfg0 [] none
          [({ done := true, prompt_eval_count := some 10, eval_count := some 5 } : WireChunk)]
          (.ok : TransportOutcome Unit)).events
        = pre ++ [.modelMetadataEvent 10 ((some 5).getD 0) (10 + (some 5).getD 0),
                  .modelMessageStopEvent r]
      ∧ pre.countP isMetadata = 0)
    ∧ ((OllamaModel.stream genR cfg0 [] none [({ done := true } : WireChunk)]
        (.ok : TransportOutcome Unit)).events).countP isMetadata = 0 :=
  ⟨(C4_metadata_amended genR cfg0 [] none
      [{ done := true, prompt_eval_count := some 10, eval_count := some 5 }]
      { done := true, prompt_eval_count := some 10, eval_count := some 5 }
      rfl rfl).1 10 rfl,
   (C4_metadata_amended genR cfg0 [] none [{ done := true }] { done := true }
      rfl rfl).2 rfl⟩

/-- Counterexample to C5 as stated: a response stream whose only chunk is
the done chunk itself carrying a tool-call descriptor.  No chunk before the
done chunk carries a tool call, so the claim requires stop reason end-turn,
but the code processes the tool calls of the done chunk before its done
branch and stops with reason tool-use. -/
theorem C5_counterexample :
    (([({ tool_calls := some [⟨"f", JsonValue.null⟩], done := true } : WireChunk)]).dropLast.all
        fun c => !chunkHasToolCall c) = true
    ∧ (OllamaModel.stream genR cfg0 [] none
        [({ tool_calls := some [⟨"f", JsonValue.null⟩], done := true } : WireChunk)]
        (.ok : TransportOutcome Unit)).events
      = [.modelMessageStartEvent "assistant",
         .modelContentBlockStartEvent ("call_" ++ genR 0) "f",
         .modelContentBlockDeltaEventToolInput (JsonValue.stringify JsonValue.null),
         .modelContentBlockStopEvent,
         .modelMessageStopEvent .toolUse] :=
  ⟨rfl, rfl⟩

/-- C5 (amended): on a successfully completed stream the stop reason of the
message-stop event is tool-use iff at least one tool-call descriptor was
observed in any chunk of the stream up to AND INCLUDING the done chunk, and
end-turn otherwise. -/
theorem C5_stop_reason_amended (gen : Nat → String) (cfg : OllamaModelConfig)
    (m : List Message) (o : Option StreamOptions) (chunks : List WireChunk)
    (hwf : wellFormedChunks chunks = true) :
    ∃ pre,
      (OllamaModel.stream gen cfg m o chunks (.ok : TransportOutcome Unit)).events
        = pre ++ [.modelMessageStopEvent
            (if chunks.any chunkHasToolCall then .toolUse else .endTurn)] := by
  obtain ⟨pre, L, hL, heq, _, _, _⟩ := processChunks_wf_split gen chunks hwf ⟨false, 0⟩
  refine ⟨ModelStreamEvent.modelMessageStartEvent "assistant" :: (pre ++ metaEvents L), ?_⟩
  have hev : (OllamaModel.stream gen cfg m o chunks (.ok : TransportOutcome Unit)).events
      = ModelStreamEvent.modelMessageStartEvent "assistant"
        :: processChunks gen ⟨false, 0⟩ chunks := rfl
  rw [hev, heq]
  simp

/-- Witness for C5 (amended): on a stream whose done chunk carries the only
tool call, the final stop reason computes to tool-use. -/
theorem C5_stop_reason_amended_witness :
    wellFormedChunks
        [({ tool_calls := some [⟨"f", JsonValue.null⟩], done := true } : WireChunk)] = true
    ∧ ∃ pre,
      (OllamaModel.stream genR cfg0 [] none
          [({ tool_calls := some [⟨"f", JsonValue.null⟩], done := true } : WireChunk)]
          (.ok : TransportOutcome Unit)).events
        = pre ++ [.modelMessageStopEvent
            (if ([({ tool_calls := some [⟨"f", JsonValue.null⟩], done := true } : WireChunk)]).any
                  chunkHasToolCall
             then .toolUse else .endTurn)] :=
  ⟨rfl, C5_stop_reason_amended genR cfg0 [] none
    [{ tool_calls := some [⟨"f", JsonValue.null⟩], done := true }] rfl⟩

/-- C6: a tool-result block with N result items is flattened into exactly N
messages with role `tool`, in item order, each content the stringified JSON
of a structured item or the raw text of a text item. -/
theorem C6_tool_result_flatten (r : String) (items : List ToolResultItem) :
    formatMessagesCore [⟨r, [.toolResult items]⟩]
      = items.map (fun it => FormattedMessage.content "tool" (toolResultContent it))
    ∧ (formatMessagesCore [⟨r, [.toolResult items]⟩]).length = items.length
    ∧ ∀ fm ∈ formatMessagesCore [⟨r, [.toolResult items]⟩], fm.role = "tool" := by
  have hcore : formatMessagesCore [⟨r, [.toolResult items]⟩]
      = items.map (fun it => FormattedMessage.content "tool" (toolResultContent it)) := by
    simp [formatMessagesCore, formatBlock]
  refine ⟨hcore, ?_, ?_⟩
  · rw [hcore, List.length_map]
  · rw [hcore]
    intro fm hfm
    obtain ⟨it, _, hit⟩ := List.mem_map.mp hfm
    rw [← hit]
    rfl

/-- C7: with a system prompt present in the options, the first formatted
message has role `system`; its content is the prompt verbatim for a
non-empty plain string, and for a block sequence it is the concatenation,
in order with no separator, of the text of the text-bearing blocks with
non-text blocks contributing the empty string. -/
theorem C7_system_prompt_first (msgs : List Message) (o : StreamOptions) :
    (∀ s, o.systemPrompt = some (.str s) → s ≠ "" →
      (formatMessagesFull msgs (some o)).head?
        = some (.content "system" s))
    ∧ (∀ bs, o.systemPrompt = some (.blocks bs) →
      (formatMessagesFull msgs (some o)).head?
        = some (.content "system"
            (String.join (bs.map fun b =>
              match b with
              | PromptBlock.textBlock t => t
              | PromptBlock.otherPromptBlock => "")))) := by
  constructor
  · intro s hsp hs
    have hb : (s == "") = false := by
      cases h : s == "" with
      | true => exact absurd (by simpa using h) hs
      | false => rfl
    simp [formatMessagesFull, systemMessages, hsp, promptTruthy, hb,
      systemPromptContent]
  · intro bs hsp
    simp [formatMessagesFull, systemMessages, hsp, promptTruthy,
      systemPromptContent]

/-- Witness for C7 at a plain-string prompt and at a mixed block-sequence
prompt. -/
theorem C7_system_prompt_first_witness :
    (formatMessagesFull [] (some ⟨some (.str "be brief"), none⟩)).head?
      = some (.content "system" "be brief")
    ∧ (formatMessagesFull []
        (some ⟨some (.blocks [.textBlock "a", .otherPromptBlock, .textBlock "b"]), none⟩)).head?
      = some (.content "system"
          (String.join ([PromptBlock.textBlock "a", PromptBlock.otherPromptBlock,
              PromptBlock.textBlock "b"].map fun b =>
            match b with
            | PromptBlock.textBlock t => t
            | PromptBlock.otherPromptBlock => ""))) :=
  ⟨(C7_system_prompt_first [] ⟨some (.str "be brief"), none⟩).1 "be brief" rfl
      (by decide),
   (C7_system_prompt_first []
      ⟨some (.blocks [.textBlock "a", .otherPromptBlock, .textBlock "b"]), none⟩).2
      [.textBlock "a", .otherPromptBlock, .textBlock "b"] rfl⟩

/-- C8: when the transport raises (at open, with zero chunks delivered, or
mid-stream after any chunks), the error-level channel of the logger is
invoked exactly once (no other channel is touched), the original error is
re-raised unchanged to the caller, and the event sequence is exactly the
events of the delivered chunks — no additional event signals the error;
on success the error channel is never invoked. -/
theorem C8_error_logged_reraised {ε : Type} (gen : Nat → String)
    (cfg : OllamaModelConfig) (m : List Message) (o : Option StreamOptions)
    (chunks : List WireChunk) (e : ε) :
    (OllamaModel.stream gen cfg m o chunks (.err e)).log = { error := 1 }
    ∧ (OllamaModel.stream gen cfg m o chunks (.err e)).outcome = .error e
    ∧ (OllamaModel.stream gen cfg m o chunks (.err e)).events
        = (OllamaModel.stream gen cfg m o chunks (.ok : TransportOutcome ε)).events
    ∧ (OllamaModel.stream gen cfg m o chunks (.ok : TransportOutcome ε)).log = {} :=
  ⟨rfl, rfl, rfl, rfl⟩

/-- C9: the wire request passed to the transport is independent of the
ambient id source (the randomness consulted only during stream translation)
and equals the formatter output on the same conversation, options and
config; two formatter calls with identical inputs therefore produce
structurally identical requests, and no generated tool-use id can appear in
a formatted request. -/
theorem C9_formatter_deterministic (gen1 gen2 : Nat → String)
    (cfg : OllamaModelConfig) (m : List Message) (o : Option StreamOptions)
    (chunks : List WireChunk) (tr : TransportOutcome Unit) :
    (OllamaModel.stream gen1 cfg m o chunks tr).request
        = (OllamaModel.stream gen2 cfg m o chunks tr).request
    ∧ (OllamaModel.stream gen1 cfg m o chunks tr).request
        = OllamaModel._formatRequest cfg m o := by
  cases tr <;> exact ⟨rfl, rfl⟩

/-- C10: a falsy system prompt (the empty string, or an absent prompt) makes
`_formatRequest` prepend no system message: the formatted message list and
the whole request coincide with the ones produced with no system prompt. -/
theorem C10_empty_system_prompt (cfg : OllamaModelConfig) (msgs : List Message)
    (ts : Option (List ToolSpec)) :
    formatMessagesFull msgs (some ⟨some (.str ""), ts⟩)
        = formatMessagesFull msgs (some ⟨none, ts⟩)
    ∧ formatMessagesFull msgs (some ⟨some (.str ""), ts⟩)
        = formatMessagesFull msgs none
    ∧ OllamaModel._formatRequest cfg msgs (some ⟨some (.str ""), ts⟩)
        = OllamaModel._formatRequest cfg msgs (some ⟨none, ts⟩) :=
  ⟨rfl, rfl, rfl⟩

/-- Witness for C6 at a one-item tool result: the flattened message and its
role computed at a concrete item. -/
theorem C6_tool_result_flatten_witness :
    formatMessagesCore [⟨"assistant", [.toolResult [.text "ok"]]⟩]
      = [FormattedMessage.content "tool" "ok"]
    ∧ (FormattedMessage.content "tool" "ok").role = "tool" :=
  ⟨(C6_tool_result_flatten "assistant" [.text "ok"]).1,
   (C6_tool_result_flatten "assistant" [.text "ok"]).2.2
     (FormattedMessage.content "tool" "ok")
     (by rw [(C6_tool_result_flatten "assistant" [.text "ok"]).1]
         exact List.mem_singleton.mpr rfl)⟩
